import Mathlib

set_option maxHeartbeats 1000000

/-!
Shallow embedding of the training/prediction core of the multiview_models
repository (`src/models/utils_deep.py` and `multiae/base/dataloaders.py`),
together with theorems settling the specification claims about it.

Conventions: a view is a list of rows (samples); machine floats are modelled
by `ℚ`, with `Option ℚ` where not-a-number values matter (`none` = NaN);
Python's `random` module is modelled by explicit state passing.
-/

/-! ## Batch index bookkeeping (`predict_latents` / `predict_reconstruction`)

The prediction loops compute, for each `batch_idx`,
`start = batch_idx * batch_size`, `end = start + batch_size`, and on the final
batch (`batch_idx == num_batches - 1`) set `end = num_elements`.
`num_batches = len(generators[0])` is `ceil(n / b)` for a torch DataLoader
with `drop_last=False`. -/

/-- Number of batches a DataLoader with batch size `b` over `n` samples
yields: `ceil(n / b)` (`len(generators[0])`). -/
def num_batches (n b : ℕ) : ℕ := (n + b - 1) / b

/-- Start offset of batch `i` in the output accumulator (`start = batch_idx * batch_size`). -/
def batch_start (b i : ℕ) : ℕ := i * b

/-- End offset of batch `i` in the output accumulator: `start + batch_size`,
replaced by `num_elements` on the final batch. -/
def batch_stop (n b i : ℕ) : ℕ :=
  if i = num_batches n b - 1 then n else i * b + b

/-! ## Batch generator factory (`Optimisation_VAE.generate_data`)

A torch DataLoader with `shuffle=False` and `drop_last=False` yields the
dataset's samples in consecutive chunks of `batch_size` (the last chunk may be
short). `generate_data` builds one such generator per view; the batch size is
the configured one when it is not `None`, otherwise the view's sample count. -/

/-- The sequence of batches a DataLoader with batch size `b` (`shuffle=False`,
`drop_last=False`) yields over a dataset: consecutive chunks of size `b`. -/
def makeBatches : ℕ → List α → List (List α)
  | _, [] => []
  | 0, _ :: _ => []
  | b + 1, x :: xs => ((x :: xs).take (b + 1)) :: makeBatches (b + 1) ((x :: xs).drop (b + 1))
termination_by b l => l.length
decreasing_by
  simp only [List.length_drop, List.length_cons]
  omega

/-- `Optimisation_VAE.generate_data` (standard path): one generator per view;
per-view batch size is `batch_size` when configured, else the view's sample
count (`np.shape(data_)[0]`), i.e. the whole dataset as a single batch. -/
def generate_data (batch_size : Option ℕ) (views : List (List α)) : List (List (List α)) :=
  views.map (fun v => makeBatches (batch_size.getD v.length) v)

/-- Number of synchronized steps Python's `zip(*generators)` performs: the
minimum generator length (zero when there are no generators). -/
def min_len : List (List α) → ℕ
  | [] => 0
  | [g] => g.length
  | g :: rest => min g.length (min_len rest)

/-- The synchronized batches `zip(*generators)` yields: at step `i`, the list
of each generator's `i`-th batch. -/
def sync_batches (gens : List (List (List α))) : List (List (List α)) :=
  (List.range (min_len gens)).map (fun i => gens.map (fun g => g.getD i []))

/-! ## Data splitters (`Optimisation_VAE.data_split`,
`MultiviewDataModule.train_test_split`) -/

/-- Python's `int()` applied to the nonnegative products arising here:
truncation, i.e. the floor. -/
def int_trunc (q : ℚ) : ℕ := (Int.floor q).toNat

/-- `np.setdiff1d(list(range(n)), idx)`: the sorted list of elements of
`{0, ..., n-1}` not in `idx`. -/
def np_setdiff1d (n : ℕ) (idx : List ℕ) : List ℕ :=
  (List.range n).filter (fun i => decide (i ∉ idx))

/-- NumPy fancy-indexing `a[idx, :]` of the rows of `a` by an index list. -/
def sliceIdx (l : List α) (idx : List ℕ) : List α := idx.filterMap l.get?

/-- `self.data[0].shape[0]`: the sample count read off the first view. -/
def sample_count (views : List (List α)) : ℕ := (views.headD []).length

/-- `MultiviewDataModule.train_test_split`: given the sampled training index
list, slice every view and (when present) the labels by the training indices
and by their `np.setdiff1d` complement. -/
def train_test_split (views : List (List α)) (labels : Option (List β)) (trainIdx : List ℕ) :
    (List (List α) × List (List α)) × Option (List β) × Option (List β) :=
  let testIdx := np_setdiff1d (sample_count views) trainIdx
  ((views.map (fun v => sliceIdx v trainIdx), views.map (fun v => sliceIdx v testIdx)),
   labels.map (fun l => sliceIdx l trainIdx), labels.map (fun l => sliceIdx l testIdx))

/-- State of Python's `random` module (a Mersenne-Twister generator), kept
abstract: only the effect of `random.seed` matters here. -/
structure PyRandom where
  state : ℕ

/-- `random.seed(s)`: resets the generator state to a function of `s` alone. -/
def py_seed (s : ℕ) : PyRandom := ⟨s⟩

/-- Training-index count used by `Optimisation_VAE.data_split`:
`int(data[0].shape[0] * 0.8)` — the fraction is hard-coded to `0.8`,
the `split` argument is ignored. -/
def data_split_train_count (n : ℕ) : ℕ := int_trunc ((4 / 5 : ℚ) * n)

/-- Index pair produced by `Optimisation_VAE.data_split`: seed the module
generator with `42`, draw `random.sample(range(0, n), int(n * 0.8))`, and take
the `np.setdiff1d` complement.  `sampler` models `random.sample` as a
deterministic function of the generator state. -/
def data_split_idx (sampler : PyRandom → ℕ → ℕ → List ℕ) (g : PyRandom) (n : ℕ) :
    List ℕ × List ℕ :=
  let g0 := py_seed 42
  let _ := g
  let idx1 := sampler g0 n (data_split_train_count n)
  (idx1, np_setdiff1d n idx1)

/-- `Optimisation_VAE.data_split`: slice every view by the sampled index pair
(the label vector is not sliced by this function). -/
def data_split (sampler : PyRandom → ℕ → ℕ → List ℕ) (g : PyRandom)
    (views : List (List α)) : List (List (List α)) :=
  let idx := data_split_idx sampler g (sample_count views)
  [views.map (fun v => sliceIdx v idx.1), views.map (fun v => sliceIdx v idx.2)]

/-! ## Training-epoch dispatch (`Optimisation_VAE.optimise` / `iterate_batch`)

`iterate_batch` runs
`loss = self.validate_batch(local_batch) if self.val_set else self.optimise_batch(local_batch)`
for every synchronized batch; `optimise` calls it once over the training
generators each epoch and, when `self.val_set` is set, once more over the
validation generators. -/

/-- The two model-family protocol steps a batch can be delegated to. -/
inductive StepKind where
  | optimise_step : StepKind
  | validate_step : StepKind
deriving DecidableEq, Repr

/-- The dispatch in `iterate_batch` (utils_deep.py line 172): `validate_batch`
when `self.val_set` is truthy, else `optimise_batch`. -/
def iterate_batch_dispatch (val_set : Bool) : StepKind :=
  if val_set then StepKind.validate_step else StepKind.optimise_step

/-- The step performed for each of the `nBatches` synchronized batches of one
`iterate_batch` call. -/
def iterate_batch_steps (val_set : Bool) (nBatches : ℕ) : List StepKind :=
  (List.range nBatches).map (fun _ => iterate_batch_dispatch val_set)

/-- One epoch of `Optimisation_VAE.optimise` in the mini-batch path: the steps
run over the training generators, and those run over the validation generators
(empty when no validation set is configured). -/
def optimise_epoch_steps (val_set : Bool) (nTrain nVal : ℕ) :
    List StepKind × List StepKind :=
  (iterate_batch_steps val_set nTrain,
   if val_set then iterate_batch_steps val_set nVal else [])

/-! ## Loss logging (`Optimisation_VAE.optimise` epoch loop) -/

/-- A loss record: named loss components with scalar values. -/
abbrev LossRec := List (String × ℚ)

/-- The training logger's observable state: the field names it was initialised
with and the appended history of loss records. -/
structure Logger where
  keys : List String
  history : List LossRec

/-- Modelled from the spec: the `Logger` collaborator (`io_utils.Logger`, not
under `src/`); `on_train_init(field_names)` receives only the field names and
initialises an empty history keyed by them. -/
def Logger.on_train_init (ks : List String) : Logger := ⟨ks, []⟩

/-- Modelled from the spec: the `Logger` collaborator (`io_utils.Logger`, not
under `src/`); `on_step_fi(loss_record)` appends one loss record to the
history. -/
def Logger.on_step_fi (lg : Logger) (r : LossRec) : Logger :=
  ⟨lg.keys, lg.history ++ [r]⟩

/-- The epoch loop of `Optimisation_VAE.optimise` as it acts on the training
logger: for `epoch` in `range(1, n_epochs + 1)`, on epoch 1 create the logger
and call `on_train_init` with the loss record's keys, otherwise call
`on_step_fi` with the epoch's loss record.  `loss e` is the loss record the
epoch-`e` pass produces; `none` models the unbound `logger` variable. -/
def optimise_logging (loss : ℕ → LossRec) (nEpochs : ℕ) : Option Logger :=
  (List.range' 1 nEpochs).foldl
    (fun lg epoch =>
      if epoch = 1 then some (Logger.on_train_init ((loss epoch).map Prod.fst))
      else Option.map (fun l => Logger.on_step_fi l (loss epoch)) lg)
    none

/-! ## SNP centering (`Optimisation_VAE.centre_SNPs`)

Entries are `Option ℚ`: `none` models an IEEE NaN, which propagates through
subtraction and multiplication. -/

/-- Elementwise float subtraction with NaN propagation. -/
def snp_sub (x y : Option ℚ) : Option ℚ :=
  match x, y with
  | some a, some b => some (a - b)
  | _, _ => none

/-- The assignment `data[torch.isnan(data)] = 0`: NaN becomes `0`, other
entries are unchanged. -/
def snp_denan (x : Option ℚ) : Option ℚ := some (x.getD 0)

/-- One `data - 2 * MAF` step on a row, `MAF` broadcast across rows. -/
def row_sub_2maf (maf : List (Option ℚ)) (row : List (Option ℚ)) : List (Option ℚ) :=
  List.zipWith snp_sub row (maf.map (Option.map (fun v => 2 * v)))

/-- `Optimisation_VAE.centre_SNPs`: subtract `2 * MAF` from each column, then
(after `MAF.repeat(data.shape[0], 1)`) subtract `2 * MAF` again, then replace
every NaN entry by `0`. -/
def centre_SNPs (data : List (List (Option ℚ))) (maf : List (Option ℚ)) :
    List (List (Option ℚ)) :=
  let d1 := data.map (row_sub_2maf maf)
  let d2 := d1.map (row_sub_2maf maf)
  d2.map (fun row => row.map snp_denan)

/-! ## Prediction core (`Optimisation_VAE.predict_latents`) -/

/-- The instance attributes `predict_latents` reads or assigns. -/
structure VAEState where
  data : List (List (List ℚ))
  labels : Option (List ℤ)
  val_set : Bool
  batch_size : Option ℕ
  z_dim : ℕ

/-- The tensor slice assignment `acc[start:end, :] = vals`. -/
def writeSlice (acc : List α) (s e : ℕ) (vals : List α) : List α :=
  acc.take s ++ vals.take (e - s) ++ acc.drop e

/-- The label slice carried by the `batch_idx`-th synchronized batch when
labels are present (the labelled dataset adapter pairs each data slice with
the matching label slice). -/
def label_slice (b : ℕ) (lab : Option (List ℤ)) (batch_idx : ℕ) : Option (List ℤ) :=
  lab.map (fun l => (makeBatches b l).getD batch_idx [])

/-- `Optimisation_VAE.predict_latents` (per-view representation path):
assigns `self.data`, `self.labels`, `self.val_set` from the call's arguments,
rebuilds the generators over `self.data`, and under `torch.no_grad()` fills
per-view accumulators batch by batch at `[start:end]`; with no batch size
configured it performs one whole-dataset pass.  `encRep` is the model's
encode / reparameterise / optional-threshold pipeline (architecture code
outside this core), a deterministic function of the batch and its labels;
the returned matrices model the `.cpu().detach().numpy()` arrays. -/
def predict_latents (encRep : List (List (List ℚ)) → Option (List ℤ) → List (List (List ℚ)))
    (s : VAEState) (d : List (List (List ℚ))) (lab : Option (List ℤ)) (vs : Bool) :
    VAEState × List (List (List ℚ)) :=
  let s1 : VAEState := { s with data := d, labels := lab, val_set := vs }
  let gens := generate_data s1.batch_size s1.data
  let numElements := sample_count s1.data
  let batchSize := s1.batch_size.getD numElements
  let numBatches := (gens.headD []).length
  let out :=
    match s1.batch_size with
    | some _ =>
        let init := s1.data.map (fun _ => List.replicate numElements (List.replicate s1.z_dim (0 : ℚ)))
        ((sync_batches gens).enum).foldl
          (fun acc p =>
            let pred := encRep p.2 (label_slice batchSize s1.labels p.1)
            let st := batch_start batchSize p.1
            let en := if p.1 = numBatches - 1 then numElements else st + batchSize
            List.zipWith (fun a q => writeSlice a st en q) acc pred)
          init
    | none => encRep s1.data s1.labels
  (s1, out)

/-! ## Helper lemmas -/

/-- Helper: `a < (a / b + 1) * b` for positive `b`. -/
lemma lt_div_succ_mul (a b : ℕ) (hb : 0 < b) : a < (a / b + 1) * b := by
  calc a = b * (a / b) + a % b := (Nat.div_add_mod a b).symm
    _ < b * (a / b) + b := Nat.add_lt_add_left (Nat.mod_lt a hb) _
    _ = (a / b + 1) * b := by ring

/-- Helper: for `n ≥ 1` and `b ≥ 1`, `num_batches n b = (n - 1) / b + 1`. -/
lemma num_batches_eq (n b : ℕ) (hb : 0 < b) (hn : 0 < n) :
    num_batches n b = (n - 1) / b + 1 := by
  have h : n + b - 1 = (n - 1) + b := by omega
  rw [num_batches, h, Nat.add_div_right _ hb]

/-- Helper: the sample count never exceeds `num_batches * batch_size`. -/
lemma le_num_batches_mul (n b : ℕ) (hb : 0 < b) : n ≤ num_batches n b * b := by
  rcases Nat.eq_zero_or_pos n with hn | hn
  · simp [hn]
  · rw [num_batches_eq n b hb hn]
    have := lt_div_succ_mul (n - 1) b hb
    omega

/-! ## Claim theorems -/

/-- C4: for every sample count `n` and positive batch size `b`, the per-batch
accumulator writes at `[start:stop)` — with `start = batch_idx * batch_size`
and `stop = start + batch_size`, replaced by `n` on the final batch — cover
every index in `{0, ..., n-1}` exactly once, and the final batch's stop offset
equals `n` even when `n` is not a multiple of `b`. -/
theorem accumulator_slices_partition (n b : ℕ) (hb : 0 < b) :
    (∀ j, j < n → ∃! i, i < num_batches n b ∧ batch_start b i ≤ j ∧ j < batch_stop n b i)
    ∧ batch_stop n b (num_batches n b - 1) = n := by
  constructor
  · intro j hj
    have hn : 0 < n := lt_of_le_of_lt (Nat.zero_le j) hj
    have hK : num_batches n b = (n - 1) / b + 1 := num_batches_eq n b hb hn
    refine ⟨j / b, ⟨?_, ?_, ?_⟩, ?_⟩
    · have h1 : j / b ≤ (n - 1) / b := Nat.div_le_div_right (by omega)
      omega
    · exact Nat.div_mul_le_self j b
    · by_cases hlast : j / b = num_batches n b - 1
      · simpa [batch_stop, hlast] using hj
      · have := lt_div_succ_mul j b hb
        simp only [batch_stop, hlast, if_false]
        calc j < (j / b + 1) * b := lt_div_succ_mul j b hb
          _ = j / b * b + b := by ring
    · rintro i ⟨hiK, hle, hlt⟩
      have hub : j < i * b + b := by
        by_cases h : i = num_batches n b - 1
        · have h1 : n ≤ num_batches n b * b := le_num_batches_mul n b hb
          have h2 : num_batches n b * b = (num_batches n b - 1) * b + b := by
            have : num_batches n b = (num_batches n b - 1) + 1 := by omega
            calc num_batches n b * b = ((num_batches n b - 1) + 1) * b := by rw [← this]
              _ = (num_batches n b - 1) * b + b := by ring
          have h3 : j < n := by simpa [batch_stop, h] using hlt
          rw [h]
          omega
        · simpa [batch_stop, h] using hlt
      have hlo : i * b ≤ j := hle
      have : j / b = i := Nat.div_eq_of_lt_le hlo (by calc j < i * b + b := hub
        _ = (i + 1) * b := by ring)
      omega
  · simp [batch_stop]

/-- C4 witness: at `n = 5`, `b = 2` the hypothesis holds and the final batch's
stop offset is the sample count. -/
theorem accumulator_slices_partition_witness :
    0 < 2 ∧ batch_stop 5 2 (num_batches 5 2 - 1) = 5 :=
  ⟨by decide, (accumulator_slices_partition 5 2 (by decide)).2⟩

/-- Helper: `num_batches` satisfies the recurrence of chunking. -/
lemma num_batches_sub (n B : ℕ) (hB : 0 < B) (hn : 0 < n) :
    num_batches n B = num_batches (n - B) B + 1 := by
  rcases le_or_lt n B with h | h
  · have h0 : n - B = 0 := by omega
    have h1 : num_batches 0 B = 0 := by
      unfold num_batches
      exact Nat.div_eq_of_lt (by omega)
    have h2 : num_batches n B = 1 := by
      unfold num_batches
      apply Nat.div_eq_of_lt_le (by omega) (by omega)
    rw [h0, h1, h2]
  · unfold num_batches
    have h1 : n + B - 1 = ((n - B) + B - 1) + B := by omega
    rw [h1, Nat.add_div_right _ hB]

/-- Helper: concatenating the chunks of a DataLoader recovers the dataset in
original order. -/
lemma makeBatches_flatten (b : ℕ) (l : List α) (hb : 0 < b) :
    (makeBatches b l).flatten = l := by
  induction b, l using makeBatches.induct with
  | case1 b => simp [makeBatches]
  | case2 x xs => omega
  | case3 b x xs ih =>
      simp only [makeBatches, List.flatten_cons]
      rw [ih (by omega)]
      exact List.take_append_drop _ _

/-- Helper: a DataLoader over `n` samples with batch size `b` yields
`num_batches n b` batches. -/
lemma makeBatches_length (b : ℕ) (l : List α) (hb : 0 < b) :
    (makeBatches b l).length = num_batches l.length b := by
  induction b, l using makeBatches.induct with
  | case1 b =>
      simp only [makeBatches, List.length_nil]
      exact (Nat.div_eq_of_lt (by omega)).symm
  | case2 x xs => omega
  | case3 b x xs ih =>
      simp only [makeBatches, List.length_cons]
      rw [ih, List.length_drop]
      rw [num_batches_sub (xs.length + 1) (b + 1) (by omega) (by omega)]
      simp only [List.length_cons]
      omega

/-- Helper: with the whole dataset as one batch, a single chunk is yielded. -/
lemma makeBatches_whole (l : List α) (h : l ≠ []) : makeBatches l.length l = [l] := by
  cases l with
  | nil => exact absurd rfl h
  | cons x xs =>
      simp only [List.length_cons, makeBatches]
      rw [show xs.length + 1 = (x :: xs).length from rfl]
      rw [List.take_length, List.drop_length]
      simp [makeBatches]

/-- C5: for every collection of views of equal sample count `n` and fixed
positive batch size `b`, `generate_data` produces one generator per view, each
yielding `ceil(n/b)` batches whose concatenation recovers exactly that view's
samples in original order; and with the whole-dataset batch policy
(`batch_size = None`, `n ≥ 1`) each generator yields exactly one batch holding
all of that view's samples. -/
theorem generate_data_spec (views : List (List α)) (n b : ℕ) (hb : 0 < b)
    (hn : ∀ v ∈ views, v.length = n) :
    List.Forall₂ (fun g v => g.flatten = v ∧ g.length = num_batches n b)
      (generate_data (some b) views) views
    ∧ (0 < n → generate_data none views = views.map (fun v => [v])) := by
  constructor
  · have hgd : generate_data (some b) views = views.map (fun v => makeBatches b v) := rfl
    rw [hgd, List.forall₂_map_left_iff]
    refine List.forall₂_same.mpr (fun v hv => ⟨makeBatches_flatten b v hb, ?_⟩)
    rw [makeBatches_length b v hb, hn v hv]
  · intro hpos
    unfold generate_data
    apply List.map_congr_left
    intro v hv
    have hlen : v.length = n := hn v hv
    have hne : v ≠ [] := by
      intro hnil
      rw [hnil] at hlen
      simp at hlen
      omega
    simpa [Option.getD] using makeBatches_whole v hne

/-- C5 witness: two views of 3 samples each under the whole-dataset policy
yield one single-batch generator per view. -/
theorem generate_data_spec_witness :
    (0:ℕ) < 1 ∧ generate_data none [[(1:ℕ),2,3],[4,5,6]] = [[(1:ℕ),2,3],[4,5,6]].map (fun v => [v]) :=
  ⟨by decide, (generate_data_spec [[(1:ℕ),2,3],[4,5,6]] 3 1 (by decide) (by decide)).2 (by decide)⟩

/-- Helper: membership in the `np.setdiff1d` complement. -/
lemma mem_np_setdiff1d (n : ℕ) (idx : List ℕ) (i : ℕ) :
    i ∈ np_setdiff1d n idx ↔ i < n ∧ i ∉ idx := by
  simp [np_setdiff1d, List.mem_filter, List.mem_range]

/-- Helper: the members of `range n` lying in a duplicate-free, in-range index
list are a permutation of that list. -/
lemma filter_mem_range_perm (n : ℕ) (idx : List ℕ) (hnd : idx.Nodup)
    (hbd : ∀ i ∈ idx, i < n) :
    ((List.range n).filter (fun i => decide (i ∈ idx))).Perm idx := by
  apply (List.perm_ext_iff_of_nodup ((List.nodup_range n).filter _) hnd).mpr
  intro a
  simp only [List.mem_filter, List.mem_range, decide_eq_true_eq]
  exact ⟨fun h => h.2, fun h => ⟨hbd a h, h⟩⟩

/-- Helper: the `np.setdiff1d` complement of a duplicate-free, in-range index
list of length `k` has length `n - k`. -/
lemma np_setdiff1d_length (n : ℕ) (idx : List ℕ) (hnd : idx.Nodup)
    (hbd : ∀ i ∈ idx, i < n) :
    (np_setdiff1d n idx).length = n - idx.length := by
  have hsplit := List.length_eq_length_filter_add (l := List.range n)
    (fun i => decide (i ∈ idx))
  have hmem : ((List.range n).filter (fun i => decide (i ∈ idx))).length = idx.length :=
    (filter_mem_range_perm n idx hnd hbd).length_eq
  have hrw : np_setdiff1d n idx = (List.range n).filter (fun i => !(decide (i ∈ idx))) := by
    simp [np_setdiff1d]
  rw [hrw]
  rw [List.length_range] at hsplit
  omega

/-- Helper: fancy indexing with in-range indices keeps one row per index. -/
lemma sliceIdx_length (l : List α) (idx : List ℕ) (h : ∀ i ∈ idx, i < l.length) :
    (sliceIdx l idx).length = idx.length := by
  induction idx with
  | nil => rfl
  | cons i is ih =>
      have hi : i < l.length := h i (List.mem_cons_self i is)
      have hrec := ih (fun j hj => h j (List.mem_cons_of_mem i hj))
      simp only [sliceIdx, List.filterMap_cons, List.get?_eq_get hi] at hrec ⊢
      simp [hrec]

/-- C2 counterexample: the training-index count is Python `int()` truncation,
not `round` — at `f = 4/5`, `n = 7` the code takes `int(5.6) = 5` training
indices while the claim demands `round(5.6) = 6`; moreover
`Optimisation_VAE.data_split` ignores the fraction entirely — at `f = 1/2`,
`n = 10` it takes `int(10 * 0.8) = 8` indices, not `round(5) = 5`. -/
theorem train_size_round_counterexample :
    ((int_trunc ((4/5 : ℚ) * (7:ℕ)) : ℤ) ≠ round ((4/5 : ℚ) * (7:ℕ)))
    ∧ ((data_split_train_count 10 : ℤ) ≠ round ((1/2 : ℚ) * (10:ℕ))) := by
  constructor
  · norm_num [int_trunc, round_eq]
  · norm_num [data_split_train_count, int_trunc, round_eq]

/-- C2 (amended): for every train fraction `f` and sample count `n`, given the
sampled training index list (`random.sample` returns `int(f*n)` distinct
in-range indices), `train_test_split` produces a training index set of size
`int(f*n)` (truncation, not rounding) and a validation index set of size
`n - int(f*n)`; the two index sets are disjoint and together cover exactly
`{0, ..., n-1}`; and the identical index sets slice every view and the label
vector when present, preserving those sizes. -/
theorem train_test_split_spec (f : ℚ) (n : ℕ) (views : List (List α))
    (labels : Option (List β)) (trainIdx : List ℕ)
    (hnd : trainIdx.Nodup) (hbd : ∀ i ∈ trainIdx, i < n)
    (hlen : trainIdx.length = int_trunc (f * (n:ℚ))) (hsc : sample_count views = n) :
    trainIdx.length = int_trunc (f * (n:ℚ))
    ∧ (np_setdiff1d n trainIdx).length = n - int_trunc (f * (n:ℚ))
    ∧ (∀ i, i < n ↔ (i ∈ trainIdx ∨ i ∈ np_setdiff1d n trainIdx))
    ∧ (∀ i, ¬(i ∈ trainIdx ∧ i ∈ np_setdiff1d n trainIdx))
    ∧ train_test_split views labels trainIdx =
        ((views.map (fun v => sliceIdx v trainIdx),
          views.map (fun v => sliceIdx v (np_setdiff1d n trainIdx))),
         labels.map (fun l => sliceIdx l trainIdx),
         labels.map (fun l => sliceIdx l (np_setdiff1d n trainIdx)))
    ∧ (∀ v, v ∈ views → v.length = n →
        (sliceIdx v trainIdx).length = int_trunc (f * (n:ℚ))
        ∧ (sliceIdx v (np_setdiff1d n trainIdx)).length = n - int_trunc (f * (n:ℚ)))
    ∧ (∀ lv, labels = some lv → lv.length = n →
        (sliceIdx lv trainIdx).length = int_trunc (f * (n:ℚ))
        ∧ (sliceIdx lv (np_setdiff1d n trainIdx)).length = n - int_trunc (f * (n:ℚ))) := by
  have hsd : ∀ i, i ∈ np_setdiff1d n trainIdx ↔ i < n ∧ i ∉ trainIdx :=
    fun i => mem_np_setdiff1d n trainIdx i
  have hsdlen : (np_setdiff1d n trainIdx).length = n - int_trunc (f * (n:ℚ)) := by
    rw [np_setdiff1d_length n trainIdx hnd hbd, hlen]
  refine ⟨hlen, hsdlen, ?_, ?_, ?_, ?_, ?_⟩
  · intro i
    constructor
    · intro hi
      by_cases hmem : i ∈ trainIdx
      · exact Or.inl hmem
      · exact Or.inr ((hsd i).mpr ⟨hi, hmem⟩)
    · rintro (hmem | hmem)
      · exact hbd i hmem
      · exact ((hsd i).mp hmem).1
  · rintro i ⟨hmem, hmem'⟩
    exact ((hsd i).mp hmem').2 hmem
  · subst hsc
    rfl
  · intro v _ hv
    constructor
    · rw [sliceIdx_length v trainIdx (fun i hi => by rw [hv]; exact hbd i hi), hlen]
    · rw [sliceIdx_length v (np_setdiff1d n trainIdx)
        (fun i hi => by rw [hv]; exact ((hsd i).mp hi).1), hsdlen]
  · intro lv _ hlv
    constructor
    · rw [sliceIdx_length lv trainIdx (fun i hi => by rw [hlv]; exact hbd i hi), hlen]
    · rw [sliceIdx_length lv (np_setdiff1d n trainIdx)
        (fun i hi => by rw [hlv]; exact ((hsd i).mp hi).1), hsdlen]

/-- C2 witness: at `f = 4/5`, `n = 5` with the sampled index list
`[0, 1, 2, 3]`, the validation index set has size `n - int(f*n) = 1`. -/
theorem train_test_split_spec_witness :
    (np_setdiff1d 5 [0, 1, 2, 3]).length = 5 - int_trunc ((4/5 : ℚ) * ((5:ℕ):ℚ)) :=
  (train_test_split_spec (4/5 : ℚ) 5 [[(10:ℕ),20,30,40,50]] (some [(0:ℕ),1,2,3,4])
    [0,1,2,3] (by decide) (by decide) (by norm_num [int_trunc]; omega) (by rfl)).2.1

/-- C6: `data_split` seeds the random module with the fixed seed `42` before
sampling, so for every two runs — whatever generator state each run starts
from — the same sample count yields the identical train/validation partition
and identical sliced views. -/
theorem data_split_deterministic (sampler : PyRandom → ℕ → ℕ → List ℕ)
    (g g' : PyRandom) (views : List (List α)) :
    data_split sampler g views = data_split sampler g' views := rfl

/-- C1 (code evidence): in the mini-batch path, `iterate_batch` dispatches on
`self.val_set` — whether a validation split exists — not on whether the pass
is a validation pass.  With `val_set=True`, all four batches of the training
pass are delegated to `validate_batch` (no backward pass or optimizer step),
contradicting the claim that training batches go to `optimise_batch`; with
`val_set=False` the training pass does use `optimise_batch`. -/
theorem training_dispatch_follows_val_set :
    (optimise_epoch_steps true 4 1).1 = List.replicate 4 StepKind.validate_step
    ∧ (optimise_epoch_steps false 4 0).1 = List.replicate 4 StepKind.optimise_step
    ∧ StepKind.validate_step ≠ StepKind.optimise_step := by
  refine ⟨?_, ?_, by decide⟩ <;> decide

/-- C9 (code evidence): `fit` performs no shape validation; with views of 4
and 2 samples and `batch_size = 2` the per-view generators hold 2 and 1
batches, `zip(*generators)` silently truncates to 1 synchronized batch, and
that batch is processed (the count is positive) — no error is raised before
batch processing. -/
theorem fit_mismatched_views_processed :
    (generate_data (some 2) [[(0:ℕ),1,2,3],[10,11]]).map List.length = [2, 1]
    ∧ min_len (generate_data (some 2) [[(0:ℕ),1,2,3],[10,11]]) = 1
    ∧ 0 < min_len (generate_data (some 2) [[(0:ℕ),1,2,3],[10,11]]) := by
  have h : generate_data (some 2) [[(0:ℕ),1,2,3],[10,11]] = [[[0,1],[2,3]],[[10,11]]] := by
    simp [generate_data, makeBatches]
  refine ⟨?_, ?_, ?_⟩ <;> rw [h] <;> simp [min_len]

/-- Helper: folding the epoch-loop logging step over epochs past the first
appends one loss record per epoch. -/
lemma optimise_logging_foldl (loss : ℕ → LossRec) (es : List ℕ)
    (h : ∀ e ∈ es, e ≠ 1) (l : Logger) :
    es.foldl
      (fun lg epoch =>
        if epoch = 1 then some (Logger.on_train_init ((loss epoch).map Prod.fst))
        else Option.map (fun l0 => Logger.on_step_fi l0 (loss epoch)) lg)
      (some l)
      = some ⟨l.keys, l.history ++ es.map loss⟩ := by
  induction es generalizing l with
  | nil => simp
  | cons e es ih =>
      have he : e ≠ 1 := h e (List.mem_cons_self e es)
      simp only [List.foldl_cons, if_neg he, Option.map_some']
      rw [ih (fun x hx => h x (List.mem_cons_of_mem e hx))]
      simp [Logger.on_step_fi]

/-- C3 counterexample: in the spec's end-to-end scenario with `n_epochs = 2`
the training logger's history does not hold 2 entries per loss field — the
first epoch's record is consumed for its keys only, so only 1 record is
appended. -/
theorem optimise_logging_two_epochs_counterexample :
    Option.map (fun l => l.history.length)
      (optimise_logging (fun _ => [("loss", (1:ℚ))]) 2) ≠ some 2 := by decide

/-- C3 (amended): for every fit run of `E ≥ 1` epochs, the returned training
logger is initialised on the first epoch with the loss record's field names
and receives one appended loss record for each of the epochs `2, ..., E`, so
its history holds exactly `E - 1` loss records per loss field. -/
theorem optimise_logging_spec (loss : ℕ → LossRec) (n : ℕ) (hn : 1 ≤ n) :
    optimise_logging loss n
      = some ⟨(loss 1).map Prod.fst, (List.range' 2 (n - 1)).map loss⟩
    ∧ ((List.range' 2 (n - 1)).map loss).length = n - 1 := by
  obtain ⟨m, rfl⟩ : ∃ m, n = m + 1 := ⟨n - 1, by omega⟩
  constructor
  · unfold optimise_logging
    rw [List.range'_succ]
    simp only [List.foldl_cons, eq_self_iff_true, if_true]
    rw [optimise_logging_foldl loss _ ?_ _]
    · simp [Logger.on_train_init]
    · intro e he
      rw [List.mem_range'] at he
      omega
  · simp

/-- C3 witness: three epochs yield a logger whose history holds `3 - 1 = 2`
loss records. -/
theorem optimise_logging_spec_witness :
    (optimise_logging (fun _ => [("loss", (1:ℚ))]) 3
      = some ⟨((fun _ => [("loss", (1:ℚ))]) 1).map Prod.fst,
              (List.range' 2 (3 - 1)).map (fun _ => [("loss", (1:ℚ))])⟩)
    ∧ ((List.range' 2 (3 - 1)).map (fun _ => [("loss", (1:ℚ))])).length = 3 - 1 :=
  optimise_logging_spec (fun _ => [("loss", (1:ℚ))]) 3 (by decide)

/-- Helper: on NaN-free rows, subtracting the broadcast `2 * MAF` twice and
replacing NaNs amounts to subtracting `4 * MAF` columnwise. -/
lemma centre_row (r m : List ℚ) :
    (row_sub_2maf (m.map some) (row_sub_2maf (m.map some) (r.map some))).map snp_denan
      = (r.zip m).map (fun p => some (p.1 - 4 * p.2)) := by
  induction r generalizing m with
  | nil => simp [row_sub_2maf]
  | cons x xs ih =>
      cases m with
      | nil => simp [row_sub_2maf]
      | cons y ys =>
          simp only [List.map_cons, row_sub_2maf, List.zipWith_cons_cons, List.zip_cons_cons,
            Option.map_some', snp_sub, snp_denan, Option.getD_some, List.cons.injEq]
          refine ⟨by norm_num; ring, ?_⟩
          simpa [row_sub_2maf] using ih ys

/-- Helper: `centre_SNPs` on a NaN-free matrix subtracts `4 * MAF` columnwise. -/
lemma centre_SNPs_pure (d : List (List ℚ)) (m : List ℚ) :
    centre_SNPs (d.map (fun r => r.map some)) (m.map some)
      = d.map (fun r => (r.zip m).map (fun p => some (p.1 - 4 * p.2))) := by
  unfold centre_SNPs
  simp only [List.map_map]
  apply List.map_congr_left
  intro r _
  exact centre_row r m

/-- Helper: zipping a row with an all-zero MAF vector of matching length and
subtracting `4 * MAF` leaves the row unchanged. -/
lemma zip_replicate_zero (r : List ℚ) (k : ℕ) (h : r.length = k) :
    (r.zip (List.replicate k (0:ℚ))).map (fun p => some (p.1 - 4 * p.2)) = r.map some := by
  induction r generalizing k with
  | nil => simp
  | cons x xs ih =>
      cases k with
      | zero => simp at h
      | succ k' =>
          simp only [List.replicate_succ, List.zip_cons_cons, List.map_cons, List.cons.injEq]
          refine ⟨by norm_num, ih k' (by simpa using h)⟩

/-- C8 counterexample: with the zero MAF vector, `centre_SNPs` does not return
a NaN-bearing input unchanged — the NaN entry is replaced by `0`. -/
theorem centre_SNPs_nan_counterexample :
    centre_SNPs [[none]] [some 0] ≠ [[(none : Option ℚ)]] := by decide

/-- C8 (amended): `centre_SNPs` subtracts `2 * MAF` from each column twice —
in total `4 * MAF` — and then replaces every not-a-number entry with zero; in
particular, on a NaN-free input matrix with a zero MAF vector of matching
width it returns its input unchanged (NaN-bearing inputs get their NaNs
zeroed even under zero MAF). -/
theorem centre_SNPs_spec (d : List (List ℚ)) (m : List ℚ)
    (hw : ∀ r ∈ d, r.length = m.length) :
    centre_SNPs (d.map (fun r => r.map some)) (m.map some)
      = d.map (fun r => (r.zip m).map (fun p => some (p.1 - 4 * p.2)))
    ∧ centre_SNPs (d.map (fun r => r.map some)) (List.replicate m.length (some (0:ℚ)))
      = d.map (fun r => r.map some) := by
  refine ⟨centre_SNPs_pure d m, ?_⟩
  have hrep : List.replicate m.length (some (0:ℚ))
      = (List.replicate m.length (0:ℚ)).map some := by
    simp [List.map_replicate]
  rw [hrep, centre_SNPs_pure d (List.replicate m.length (0:ℚ))]
  apply List.map_congr_left
  intro r hr
  exact zip_replicate_zero r m.length (hw r hr)

/-- C8 witness: a concrete 1×1 matrix with MAF `1`: the entry `3` becomes
`3 - 4 * 1`, and centering with the matching zero MAF vector is the
identity. -/
theorem centre_SNPs_spec_witness :
    (centre_SNPs ([[(3:ℚ)]].map (fun r => r.map some)) ([(1:ℚ)].map some)
      = [[(3:ℚ)]].map (fun r => (r.zip [(1:ℚ)]).map (fun p => some (p.1 - 4 * p.2))))
    ∧ (centre_SNPs ([[(3:ℚ)]].map (fun r => r.map some))
        (List.replicate [(1:ℚ)].length (some (0:ℚ)))
      = [[(3:ℚ)]].map (fun r => r.map some)) :=
  centre_SNPs_spec [[(3:ℚ)]] [(1:ℚ)] (by decide)

/-- C7 counterexample: inference is not mutation-free — `predict_latents`
overwrites the instance's `val_set` attribute (among others): on a model whose
`val_set` is `True`, a `predict_latents` call with the default `val_set=False`
leaves the attribute different from before the call. -/
theorem predict_latents_mutates_state :
    (predict_latents (fun b _ => b) ⟨[], none, true, some 1, 1⟩ [] none false).1.val_set ≠
      (⟨[], none, true, some 1, 1⟩ : VAEState).val_set := by decide

/-- C7 (amended): for every fixed model computation and input views, two
consecutive `predict_latents` calls with the same arguments return identical
output arrays — the attributes the first call overwrites (`data`, `labels`,
`val_set`) are exactly re-assigned by the second call and the fields the
output depends on (`batch_size`, `z_dim`, the encode/reparameterise pipeline)
are untouched — and repeating the call also leaves the instance state exactly
where the first call put it. -/
theorem predict_latents_repeat_spec
    (encRep : List (List (List ℚ)) → Option (List ℤ) → List (List (List ℚ)))
    (s : VAEState) (d : List (List (List ℚ))) (lab : Option (List ℤ)) (vs : Bool) :
    (predict_latents encRep (predict_latents encRep s d lab vs).1 d lab vs).2
      = (predict_latents encRep s d lab vs).2
    ∧ (predict_latents encRep (predict_latents encRep s d lab vs).1 d lab vs).1
      = (predict_latents encRep s d lab vs).1
    ∧ (predict_latents encRep s d lab vs).1.batch_size = s.batch_size
    ∧ (predict_latents encRep s d lab vs).1.z_dim = s.z_dim :=
  ⟨rfl, rfl, rfl, rfl⟩

/-- C10: every `predict_latents` call overwrites the instance's `data`,
`labels` and `val_set` attributes with the call's arguments (`val_set`
defaulting to `False`), so a model previously fitted with `val_set=True`
observes `val_set=False` and the prediction inputs as its stored data after
the call; the remaining configuration (`batch_size`, `z_dim`) is untouched. -/
theorem predict_latents_overwrites_config
    (encRep : List (List (List ℚ)) → Option (List ℤ) → List (List (List ℚ)))
    (s : VAEState) (d : List (List (List ℚ))) (h : s.val_set = true) :
    (predict_latents encRep s d none false).1.val_set = false
    ∧ (predict_latents encRep s d none false).1.val_set ≠ s.val_set
    ∧ (predict_latents encRep s d none false).1.data = d
    ∧ (predict_latents encRep s d none false).1.labels = none
    ∧ (predict_latents encRep s d none false).1.batch_size = s.batch_size
    ∧ (predict_latents encRep s d none false).1.z_dim = s.z_dim := by
  refine ⟨rfl, ?_, rfl, rfl, rfl, rfl⟩
  rw [h]
  intro hc
  exact Bool.noConfusion hc

/-- C10 witness: a concrete instance fitted with `val_set=True` observes
`val_set=False`, the prediction inputs as its data, and cleared labels after
a `predict_latents` call. -/
theorem predict_latents_overwrites_config_witness :
    (predict_latents (fun b _ => b) ⟨[], none, true, some 2, 1⟩ [[[(5:ℚ)]]] none false).1.val_set = false
    ∧ (predict_latents (fun b _ => b) ⟨[], none, true, some 2, 1⟩ [[[(5:ℚ)]]] none false).1.val_set ≠
        (⟨[], none, true, some 2, 1⟩ : VAEState).val_set
    ∧ (predict_latents (fun b _ => b) ⟨[], none, true, some 2, 1⟩ [[[(5:ℚ)]]] none false).1.data = [[[(5:ℚ)]]]
    ∧ (predict_latents (fun b _ => b) ⟨[], none, true, some 2, 1⟩ [[[(5:ℚ)]]] none false).1.labels = none
    ∧ (predict_latents (fun b _ => b) ⟨[], none, true, some 2, 1⟩ [[[(5:ℚ)]]] none false).1.batch_size =
        (⟨[], none, true, some 2, 1⟩ : VAEState).batch_size
    ∧ (predict_latents (fun b _ => b) ⟨[], none, true, some 2, 1⟩ [[[(5:ℚ)]]] none false).1.z_dim =
        (⟨[], none, true, some 2, 1⟩ : VAEState).z_dim :=
  predict_latents_overwrites_config (fun b _ => b) ⟨[], none, true, some 2, 1⟩ [[[(5:ℚ)]]] rfl
